import Mathlib

/-!
Shallow embedding of the delta-neutral volume generator
(`src/bots/volume_generator.py`) and of the commission aggregation script
(`scripts/fetch_total_fees.py`).

Modelling conventions:
* Python `Decimal` values are modelled as exact rationals (`ℚ`); the code
  pins the decimal context to 28 significant digits, which is exact on the
  quantities the sizing and reconciliation paths handle.
* Python `int` is modelled as `ℤ`, `str` as `String`, `bool` as `Bool`.
* Fallible code (functions that can raise) returns `Except String _` (or a
  dedicated error type where the distinction between exception classes
  matters); the error payload carries the exception message.
* Network reads performed inside a function (available margin, position
  amounts, HTTP responses) are passed in as explicit arguments, turning the
  stateful code into pure functions of the data it observed.
-/

namespace VolumeBot

/-- Model of `Decimal.to_integral_value(rounding=ROUND_DOWN)`: truncation toward zero
(floor for non-negative values, ceiling for negative ones). -/
def toIntegralRoundDown (q : ℚ) : ℤ :=
  if 0 ≤ q then ⌊q⌋ else ⌈q⌉

/-- Dataclass `AccountConfig`: credentials for one API-key account. -/
structure AccountConfig where
  name : String
  api_key : String
  api_secret : String
  display_name : Option String := none
  deriving DecidableEq

/-- Dataclass `AccountPair`: the two account names of a delta-neutral pair. -/
structure AccountPair where
  long_account : String
  short_account : String
  deriving DecidableEq

/-- Dataclass `VolumeBotConfig` (the validated runtime configuration).
`accounts` is the insertion-ordered dict keyed by account name. -/
structure VolumeBotConfig where
  base_url : String
  symbol : String
  target_notional_usdt : ℚ
  leverage : ℤ
  quantity_step : ℚ
  hold_duration_seconds : ℚ
  cooldown_seconds : ℚ
  account_pairs : List AccountPair
  accounts : List (String × AccountConfig)
  recv_window : ℤ := 5000
  max_cycles : Option ℤ := none
  price_source_url : Option String := none
  min_quantity : Option ℚ := none
  configure_leverage : Bool := true
  min_free_margin_usdt : ℚ := 0
  position_close_timeout_seconds : ℚ := 10
  position_poll_interval_seconds : ℚ := 1/2
  deriving DecidableEq

/-- Method `VolumeBotConfig.format_quantity`: round down to the configured step,
optionally enforce the configured minimum, and raise `ValueError` when the
outcome is ≤ 0.  The guard `self.min_quantity and quantized < self.min_quantity`
uses Python truthiness: it is skipped when `min_quantity` is `None` or zero. -/
def format_quantity (cfg : VolumeBotConfig) (quantity : ℚ)
    (enforce_min : Bool := true) : Except String ℚ :=
  let quantized : ℚ :=
    (toIntegralRoundDown (quantity / cfg.quantity_step) : ℚ) * cfg.quantity_step
  let quantized : ℚ :=
    match cfg.min_quantity with
    | some m => if enforce_min ∧ m ≠ 0 ∧ quantized < m then m else quantized
    | none => quantized
  if quantized ≤ 0 then
    .error "calculated quantity rounded to zero; adjust target_notional_usdt or quantity_step"
  else
    .ok quantized

/-- The claim's notion of the step-truncated value: `quantity` truncated toward
zero to a multiple of the configured step (spec §4.3, first clause of
`formatQuantity`).  Definitionally the first `let` of `format_quantity`. -/
def truncatedToStep (cfg : VolumeBotConfig) (quantity : ℚ) : ℚ :=
  (toIntegralRoundDown (quantity / cfg.quantity_step) : ℚ) * cfg.quantity_step

/-- The claim's notion of the value "after these rules" (truncation, then the
minimum override) but before the final ≤ 0 check. -/
def ruleResult (cfg : VolumeBotConfig) (quantity : ℚ) (enforce_min : Bool) : ℚ :=
  match cfg.min_quantity with
  | some m =>
      if enforce_min ∧ m ≠ 0 ∧ truncatedToStep cfg quantity < m then m
      else truncatedToStep cfg quantity
  | none => truncatedToStep cfg quantity

/-- What `_ensure_positions_flat` decides for one side of a pair, given the
position amount it observed for that side. -/
inductive SideAction where
  /-- The side where |amount| ≤ tolerance: nothing to do. -/
  | alreadyFlat : SideAction
  /-- the dead `if quantity <= 0` branch: warn and skip. -/
  | skippedBelowStep : SideAction
  /-- submit a reduce-only close for this quantity, then wait until flat. -/
  | closeResidual (quantity : ℚ) : SideAction
  deriving DecidableEq

/-- One side's body of the loop in `VolumeGeneratorBot._ensure_positions_flat`,
after `get_position_amount` returned `amount`.  `format_quantity` is called
with `enforce_min=False`; the `ValueError` it raises is not caught inside
`_ensure_positions_flat` (the surrounding `try` blocks only catch
`VolumeBotError`), so it propagates as `.error`. -/
def ensure_side_flat (cfg : VolumeBotConfig) (amount : ℚ) :
    Except String SideAction :=
  let tolerance := cfg.quantity_step / 2
  if |amount| ≤ tolerance then
    .ok .alreadyFlat
  else
    match format_quantity cfg |amount| false with
    | .error e => .error e
    | .ok quantity =>
        if quantity ≤ 0 then .ok .skippedBelowStep
        else .ok (.closeResidual quantity)

end VolumeBot

namespace VolumeBot

/-- A concrete configuration with quantity step `0.01`, as in the residual
example of spec §8: symbol and notional are immaterial to `format_quantity`. -/
def cfgStep01 : VolumeBotConfig where
  base_url := "https://fapi.asterdex.com"
  symbol := "ASTERUSDT"
  target_notional_usdt := 100
  leverage := 50
  quantity_step := 1/100
  hold_duration_seconds := 2
  cooldown_seconds := 3
  account_pairs := [⟨"a", "b"⟩]
  accounts := [("a", ⟨"a", "key-a", "secret-a", none⟩), ("b", ⟨"b", "key-b", "secret-b", none⟩)]

/-- Characterization: `format_quantity` raises exactly when the value after truncation and the
minimum override is ≤ 0, and otherwise returns that value. -/
theorem format_quantity_eq_ruleResult (cfg : VolumeBotConfig) (q : ℚ) (b : Bool) :
    format_quantity cfg q b =
      if ruleResult cfg q b ≤ 0 then
        .error "calculated quantity rounded to zero; adjust target_notional_usdt or quantity_step"
      else .ok (ruleResult cfg q b) := by
  unfold format_quantity ruleResult truncatedToStep
  rfl

/-- Any value `format_quantity` returns (rather than raises) is positive. -/
theorem format_quantity_ok_pos (cfg : VolumeBotConfig) (q : ℚ) (b : Bool)
    (r : ℚ) (h : format_quantity cfg q b = .ok r) : 0 < r := by
  rw [format_quantity_eq_ruleResult] at h
  by_cases hle : ruleResult cfg q b ≤ 0
  · simp [hle] at h
  · simp only [hle, if_false, Except.ok.injEq] at h
    rw [← h]
    exact lt_of_not_le hle

/-- A configuration with step `0.1` and configured minimum quantity `1`,
mirroring the fixture of `test_quantity_rounding_can_skip_minimum_when_requested`. -/
def cfgMin1 : VolumeBotConfig where
  base_url := "https://fapi.asterdex.com"
  symbol := "ASTERUSDT"
  target_notional_usdt := 5
  leverage := 50
  quantity_step := 1/10
  hold_duration_seconds := 1
  cooldown_seconds := 1
  account_pairs := [⟨"a", "b"⟩]
  accounts := [("a", ⟨"a", "key-a", "secret-a", none⟩), ("b", ⟨"b", "key-b", "secret-b", none⟩)]
  min_quantity := some 1

/-- C3: for positive raw quantity and positive step, the step truncation is a
non-negative integer multiple of the step and never exceeds the raw input;
with `enforce_min` set and a (truthy) configured minimum above the truncated
value, the value after the rules is that minimum; `format_quantity` fails
exactly when the value after these rules is ≤ 0 and otherwise returns it. -/
theorem format_quantity_truncation_spec (cfg : VolumeBotConfig) (q : ℚ)
    (hq : 0 < q) (hstep : 0 < cfg.quantity_step) :
    (0 ≤ truncatedToStep cfg q ∧
      (∃ n : ℤ, truncatedToStep cfg q = (n : ℚ) * cfg.quantity_step) ∧
      truncatedToStep cfg q ≤ q) ∧
    (∀ m : ℚ, cfg.min_quantity = some m → m ≠ 0 →
      truncatedToStep cfg q < m → ruleResult cfg q true = m) ∧
    (∀ b : Bool, ruleResult cfg q b ≤ 0 →
      format_quantity cfg q b =
        .error "calculated quantity rounded to zero; adjust target_notional_usdt or quantity_step") ∧
    (∀ b : Bool, 0 < ruleResult cfg q b →
      format_quantity cfg q b = .ok (ruleResult cfg q b)) := by
  have hdiv : (0 : ℚ) ≤ q / cfg.quantity_step := le_of_lt (div_pos hq hstep)
  have htrunc : truncatedToStep cfg q = (⌊q / cfg.quantity_step⌋ : ℚ) * cfg.quantity_step := by
    unfold truncatedToStep toIntegralRoundDown
    rw [if_pos hdiv]
  refine ⟨⟨?_, ⟨toIntegralRoundDown (q / cfg.quantity_step), rfl⟩, ?_⟩, ?_, ?_, ?_⟩
  · rw [htrunc]
    exact mul_nonneg (by exact_mod_cast Int.floor_nonneg.mpr hdiv) (le_of_lt hstep)
  · rw [htrunc]
    calc (⌊q / cfg.quantity_step⌋ : ℚ) * cfg.quantity_step
        ≤ (q / cfg.quantity_step) * cfg.quantity_step :=
          mul_le_mul_of_nonneg_right (Int.floor_le _) (le_of_lt hstep)
      _ = q := div_mul_cancel₀ q (ne_of_gt hstep)
  · intro m hmin hm hlt
    unfold ruleResult
    rw [hmin]
    simp [hm, hlt]
  · intro b hle
    rw [format_quantity_eq_ruleResult, if_pos hle]
  · intro b hpos
    rw [format_quantity_eq_ruleResult, if_neg (not_le.mpr hpos)]

/-- Witness for the C3 theorem at quantity `0.347` with step `0.01`. -/
theorem format_quantity_truncation_spec_witness :
    (0 : ℚ) < 347/1000 ∧ 0 < cfgStep01.quantity_step ∧
      truncatedToStep cfgStep01 (347/1000) ≤ 347/1000 := by
  refine ⟨by norm_num, by norm_num [cfgStep01], ?_⟩
  exact (format_quantity_truncation_spec cfgStep01 (347/1000) (by norm_num)
    (by norm_num [cfgStep01])).1.2.2

/-- C9: with `enforce_min` and a positive configured minimum, `format_quantity`
never raises on a positive input (given a positive step, the configuration
invariant): the minimum override runs before the ≤ 0 check, and the result is
at least the configured minimum. -/
theorem format_quantity_enforce_min_never_raises (cfg : VolumeBotConfig)
    (q m : ℚ) (hq : 0 < q) (hstep : 0 < cfg.quantity_step)
    (hmin : cfg.min_quantity = some m) (hm : 0 < m) :
    ∃ r : ℚ, format_quantity cfg q true = .ok r ∧ m ≤ r := by
  have hrule : ruleResult cfg q true = if truncatedToStep cfg q < m then m else truncatedToStep cfg q := by
    unfold ruleResult
    rw [hmin]
    by_cases hlt : truncatedToStep cfg q < m
    · simp [hlt, ne_of_gt hm]
    · simp [hlt]
  by_cases hlt : truncatedToStep cfg q < m
  · refine ⟨m, ?_, le_refl m⟩
    rw [format_quantity_eq_ruleResult, hrule, if_pos hlt, if_neg (not_le.mpr hm)]
  · refine ⟨truncatedToStep cfg q, ?_, le_of_not_lt hlt⟩
    have hpos : 0 < truncatedToStep cfg q := lt_of_lt_of_le hm (le_of_not_lt hlt)
    rw [format_quantity_eq_ruleResult, hrule, if_neg hlt, if_neg (not_le.mpr hpos)]

/-- Witness for the C9 theorem: quantity `0.01` with step `0.1` truncates to
zero, yet with minimum `1` configured the call returns `1` instead of raising. -/
theorem format_quantity_enforce_min_never_raises_witness :
    (0 : ℚ) < 1/100 ∧ cfgMin1.min_quantity = some 1 ∧
      ∃ r : ℚ, format_quantity cfgMin1 (1/100) true = .ok r ∧ 1 ≤ r := by
  refine ⟨by norm_num, rfl, ?_⟩
  exact format_quantity_enforce_min_never_raises cfgMin1 (1/100) 1 (by norm_num)
    (by norm_num [cfgMin1]) rfl (by norm_num)

/-- C1 (code bug): a residual beyond tolerance that truncates to zero makes
`_ensure_positions_flat` raise `ValueError` out of `format_quantity` instead of
warning and skipping — the `if quantity <= 0` skip branch is unreachable.
Conjunction: (1) residual `0.007` with step `0.01` (tolerance `0.005`) raises;
(2) no input ever reaches the warn-and-skip branch; (3) the spec's own example
residual `0.003` does not even exceed the tolerance: it is treated as flat. -/
theorem ensure_positions_flat_residual_code_bug :
    ensure_side_flat cfgStep01 (7/1000) =
      .error "calculated quantity rounded to zero; adjust target_notional_usdt or quantity_step" ∧
    (∀ (cfg : VolumeBotConfig) (amount : ℚ),
      ensure_side_flat cfg amount ≠ .ok .skippedBelowStep) ∧
    ensure_side_flat cfgStep01 (3/1000) = .ok .alreadyFlat := by
  refine ⟨?_, ?_, ?_⟩
  · have habs : |(7 : ℚ)/1000| = 7/1000 := abs_of_pos (by norm_num)
    norm_num [ensure_side_flat, format_quantity, toIntegralRoundDown, cfgStep01, habs]
  · intro cfg amount h
    unfold ensure_side_flat at h
    by_cases ht : |amount| ≤ cfg.quantity_step / 2
    · simp [ht] at h
    · simp only [ht, if_false] at h
      cases hfq : format_quantity cfg |amount| false with
      | error e => rw [hfq] at h; exact absurd h (by simp)
      | ok r =>
          rw [hfq] at h
          have hr := format_quantity_ok_pos cfg |amount| false r hfq
          simp only [not_le.mpr hr, if_false] at h
          exact absurd h (by simp)
  · have habs : |(3 : ℚ)/1000| = 3/1000 := abs_of_pos (by norm_num)
    norm_num [ensure_side_flat, cfgStep01, habs]

/-- Method `VolumeGeneratorBot._adjust_quantity_for_margin`, with the two
`get_available_margin()` network reads passed in as `available_long` and
`available_short` (the loop over `(pair.long_account, pair.short_account)` is
unrolled; the first failing account raises, as in the source). -/
def adjust_quantity_for_margin (cfg : VolumeBotConfig)
    (price base_quantity available_long available_short : ℚ) : Except String ℚ :=
  if base_quantity ≤ 0 then
    .error "Base quantity calculated as zero; check configuration"
  else
    let notional := price * base_quantity
    let required_margin := notional / (cfg.leverage : ℚ)
    if required_margin ≤ 0 then .ok base_quantity
    else
      let min_free := cfg.min_free_margin_usdt
      let effective_available_long := available_long - min_free
      if effective_available_long ≤ 0 then
        .error "Available margin below configured buffer"
      else
        let scale_long := min 1 (effective_available_long / required_margin)
        let effective_available_short := available_short - min_free
        if effective_available_short ≤ 0 then
          .error "Available margin below configured buffer"
        else
          let scale_short := min 1 (effective_available_short / required_margin)
          let final_scale := min scale_long scale_short
          if final_scale ≤ 0 then
            .error "Unable to size order with current margin constraints"
          else
            match format_quantity cfg (base_quantity * final_scale) false with
            | .error e => .error e
            | .ok quantized =>
                if quantized ≤ 0 then
                  .error "Quantity rounded to zero after margin adjustment"
                else
                  match cfg.min_quantity with
                  | some m =>
                      if m ≠ 0 ∧ quantized < m then
                        .error "Available margin cannot satisfy the configured min_quantity; reduce min_quantity or increase collateral"
                      else .ok quantized
                  | none => .ok quantized

/-- Method `VolumeGeneratorBot._calculate_quantity`: base quantity from the target
notional at the given price (minimum enforced), then margin adjustment. -/
def calculate_quantity (cfg : VolumeBotConfig)
    (price available_long available_short : ℚ) : Except String ℚ :=
  match format_quantity cfg (cfg.target_notional_usdt / price) true with
  | .error e => .error e
  | .ok base_quantity =>
      adjust_quantity_for_margin cfg price base_quantity available_long available_short

/-- The worked sizing case of spec §8: target notional 100, step `0.01`,
leverage 50, free-margin buffer 5 (the fixture of
`test_quantity_scales_down_when_margin_is_tight`). -/
def cfgMargin : VolumeBotConfig where
  base_url := "https://fapi.asterdex.com"
  symbol := "ASTERUSDT"
  target_notional_usdt := 100
  leverage := 50
  quantity_step := 1/100
  hold_duration_seconds := 1
  cooldown_seconds := 1
  account_pairs := [⟨"long", "short"⟩]
  accounts := [("long", ⟨"long", "key-a", "secret-a", none⟩), ("short", ⟨"short", "key-b", "secret-b", none⟩)]
  configure_leverage := false
  min_free_margin_usdt := 5

/-- C2: (1) whenever sizing succeeds (positive price and leverage, base
quantity from `format_quantity(target/price, enforce_min=true)`, both buffered
availabilities positive), the returned quantity is the base quantity scaled by
`min(1, A1/R, A2/R)` and re-truncated with the minimum not enforced;
(2) a non-positive buffered availability on either account makes sizing fail;
(3) the worked case (notional 100, price 1, step 0.01, leverage 50,
availabilities 10 and 6, buffer 5) yields quantity 50. -/
theorem calculate_quantity_margin_scaling :
    (∀ (cfg : VolumeBotConfig) (price a_long a_short base q : ℚ),
      0 < price → 0 < (cfg.leverage : ℚ) →
      format_quantity cfg (cfg.target_notional_usdt / price) true = .ok base →
      0 < a_long - cfg.min_free_margin_usdt →
      0 < a_short - cfg.min_free_margin_usdt →
      calculate_quantity cfg price a_long a_short = .ok q →
      format_quantity cfg
        (base * min 1
          (min ((a_long - cfg.min_free_margin_usdt) / (price * base / (cfg.leverage : ℚ)))
            ((a_short - cfg.min_free_margin_usdt) / (price * base / (cfg.leverage : ℚ)))))
        false = .ok q) ∧
    (∀ (cfg : VolumeBotConfig) (price base a_long a_short : ℚ),
      0 < base → 0 < price * base / (cfg.leverage : ℚ) →
      a_long - cfg.min_free_margin_usdt ≤ 0 ∨ a_short - cfg.min_free_margin_usdt ≤ 0 →
      ∃ e, adjust_quantity_for_margin cfg price base a_long a_short = .error e) ∧
    calculate_quantity cfgMargin 1 10 6 = .ok 50 := by
  refine ⟨?_, ?_, ?_⟩
  · intro cfg price a_long a_short base q hp hl hbase h1 h2 hcalc
    have hbpos : 0 < base := format_quantity_ok_pos _ _ _ _ hbase
    have hR : 0 < price * base / (cfg.leverage : ℚ) := div_pos (mul_pos hp hbpos) hl
    have hs1 : 0 < min 1 ((a_long - cfg.min_free_margin_usdt) / (price * base / (cfg.leverage : ℚ))) :=
      lt_min one_pos (div_pos h1 hR)
    have hs2 : 0 < min 1 ((a_short - cfg.min_free_margin_usdt) / (price * base / (cfg.leverage : ℚ))) :=
      lt_min one_pos (div_pos h2 hR)
    simp only [calculate_quantity, hbase] at hcalc
    simp only [adjust_quantity_for_margin] at hcalc
    rw [if_neg (not_le.mpr hbpos), if_neg (not_le.mpr hR), if_neg (not_le.mpr h1),
      if_neg (not_le.mpr h2), if_neg (not_le.mpr (lt_min hs1 hs2))] at hcalc
    rw [inf_inf_distrib_left]
    cases hfq : format_quantity cfg
        (base * min (min 1 ((a_long - cfg.min_free_margin_usdt) / (price * base / (cfg.leverage : ℚ))))
          (min 1 ((a_short - cfg.min_free_margin_usdt) / (price * base / (cfg.leverage : ℚ)))))
        false with
    | error e => rw [hfq] at hcalc; simp at hcalc
    | ok quantized =>
        rw [hfq] at hcalc
        dsimp only at hcalc
        have hqpos := format_quantity_ok_pos _ _ _ _ hfq
        rw [if_neg (not_le.mpr hqpos)] at hcalc
        cases hmin : cfg.min_quantity with
        | none => rw [hmin] at hcalc; exact hcalc
        | some m =>
            rw [hmin] at hcalc
            dsimp only at hcalc
            by_cases hc : m ≠ 0 ∧ quantized < m
            · rw [if_pos hc] at hcalc; exact absurd hcalc (by simp)
            · rw [if_neg hc] at hcalc; exact hcalc
  · intro cfg price base a_long a_short hb hR hd
    unfold adjust_quantity_for_margin
    rw [if_neg (not_le.mpr hb), if_neg (not_le.mpr hR)]
    by_cases he1 : a_long - cfg.min_free_margin_usdt ≤ 0
    · rw [if_pos he1]
      exact ⟨_, rfl⟩
    · have he2 : a_short - cfg.min_free_margin_usdt ≤ 0 := by
        rcases hd with h | h
        · exact absurd h he1
        · exact h
      rw [if_neg he1, if_pos he2]
      exact ⟨_, rfl⟩
  · norm_num [calculate_quantity, adjust_quantity_for_margin, format_quantity,
      toIntegralRoundDown, cfgMargin, min_def]

/-- Witness for the C2 theorem at the worked case: base quantity 100, required
margin 2, availabilities 10 and 6 with buffer 5 give scale 1/2 and quantity 50. -/
theorem calculate_quantity_margin_scaling_witness :
    (0 : ℚ) < 1 ∧ 0 < (cfgMargin.leverage : ℚ) ∧
      0 < (10 : ℚ) - cfgMargin.min_free_margin_usdt ∧
      0 < (6 : ℚ) - cfgMargin.min_free_margin_usdt ∧
      format_quantity cfgMargin
        (100 * min 1
          (min (((10 : ℚ) - cfgMargin.min_free_margin_usdt) / (1 * 100 / (cfgMargin.leverage : ℚ)))
            (((6 : ℚ) - cfgMargin.min_free_margin_usdt) / (1 * 100 / (cfgMargin.leverage : ℚ)))))
        false = .ok 50 := by
  refine ⟨by norm_num, by norm_num [cfgMargin], by norm_num [cfgMargin], by norm_num [cfgMargin], ?_⟩
  exact calculate_quantity_margin_scaling.1 cfgMargin 1 10 6 100 50 (by norm_num)
    (by norm_num [cfgMargin])
    (by norm_num [format_quantity, toIntegralRoundDown, cfgMargin])
    (by norm_num [cfgMargin]) (by norm_num [cfgMargin])
    calculate_quantity_margin_scaling.2.2

/-- Python `str.upper()` restricted to the ASCII strings this code handles. -/
def pyUpper (s : String) : String :=
  ⟨s.data.map Char.toUpper⟩

/-- Python `str.rstrip("/")`: drop trailing slash characters. -/
def rstripSlash (s : String) : String :=
  ⟨(s.data.reverse.dropWhile (· = '/')).reverse⟩

/-- One entry of the raw `accounts` list.  `name` is accessed with `entry["name"]`
(required); `api_key`/`api_secret` are checked for truthiness (non-empty). -/
structure RawAccount where
  name : String
  api_key : String
  api_secret : String
  display_name : Option String := none
  deriving DecidableEq

/-- One entry of the raw `account_pairs` list. -/
structure RawPair where
  long_account : String
  short_account : String
  deriving DecidableEq

/-- The raw configuration dict as consumed by `VolumeBotConfig.from_dict`:
an absent key is `none`.  Numeric values are taken as already parsed (the
`Decimal(str(...))`/`int(...)`/`float(...)` conversions are out of scope). -/
structure RawConfig where
  base_url : Option String := none
  symbol : Option String := none
  quantity_usdt : Option ℚ := none
  target_notional_usdt : Option ℚ := none
  leverage : Option ℤ := none
  quantity_step : Option ℚ := none
  hold_duration_seconds : Option ℚ := none
  cooldown_seconds : Option ℚ := none
  recv_window : Option ℤ := none
  max_cycles : Option ℤ := none
  price_source_url : Option String := none
  min_quantity : Option ℚ := none
  configure_leverage : Option Bool := none
  min_free_margin_usdt : Option ℚ := none
  position_close_timeout_seconds : Option ℚ := none
  position_poll_interval_seconds : Option ℚ := none
  accounts : List RawAccount := []
  account_pairs : List RawPair := []
  deriving DecidableEq

/-- Python dict assignment `d[k] = v` on an insertion-ordered association
list: overwrite in place if the key exists, else append. -/
def dictSet (d : List (String × AccountConfig)) (k : String) (v : AccountConfig) :
    List (String × AccountConfig) :=
  if d.any (fun kv => kv.1 = k) then
    d.map (fun kv => if kv.1 = k then (k, v) else kv)
  else d ++ [(k, v)]

/-- The `for entry in raw.get("accounts", [])` loop of `from_dict`: validate
each entry's credentials and build the accounts dict, failing on the first
entry with a falsy (empty) `api_key` or `api_secret`. -/
def build_accounts (acc : List (String × AccountConfig)) :
    List RawAccount → Except String (List (String × AccountConfig))
  | [] => .ok acc
  | entry :: rest =>
      if entry.api_key = "" ∨ entry.api_secret = "" then
        .error "Each account requires api_key and api_secret"
      else
        build_accounts
          (dictSet acc entry.name
            ⟨entry.name, entry.api_key, entry.api_secret, entry.display_name⟩)
          rest

/-- Classmethod `VolumeBotConfig.from_dict`.  Mirrors the source's control flow: symbol is
required; `quantity_usdt` takes precedence over `target_notional_usdt` and one
of the two must be present; positivity checks on notional and step; accounts
validated and collected; pairs built from the raw list; then the non-emptiness
checks.  (The `max_cycles` string-to-int coercion is modelled away by taking
`max_cycles` as an already-parsed optional integer.) -/
def from_dict (raw : RawConfig) : Except String VolumeBotConfig :=
  let base_url := rstripSlash (raw.base_url.getD "https://fapi.asterdex.com")
  match raw.symbol with
  | none => .error "KeyError: symbol"
  | some sym =>
    let symbol := pyUpper sym
    let target_notional_input :=
      match raw.quantity_usdt with
      | some v => some v
      | none => raw.target_notional_usdt
    match target_notional_input with
    | none => .error "Either quantity_usdt or target_notional_usdt must be provided"
    | some target_notional =>
      let leverage := raw.leverage.getD 50
      let quantity_step := raw.quantity_step.getD (1/1000)
      let hold_duration := raw.hold_duration_seconds.getD 2
      let cooldown := raw.cooldown_seconds.getD 3
      let recv_window := raw.recv_window.getD 5000
      if target_notional ≤ 0 then
        .error "target_notional_usdt must be greater than zero"
      else if quantity_step ≤ 0 then
        .error "quantity_step must be a positive decimal"
      else
        match build_accounts [] raw.accounts with
        | .error e => .error e
        | .ok accounts =>
          let account_pairs := raw.account_pairs.map
            (fun p => AccountPair.mk p.long_account p.short_account)
          if accounts = [] then
            .error "Account credentials are required"
          else if account_pairs = [] then
            .error "At least one account pair must be configured"
          else
            .ok
              { base_url := base_url
                symbol := symbol
                target_notional_usdt := target_notional
                leverage := leverage
                quantity_step := quantity_step
                hold_duration_seconds := hold_duration
                cooldown_seconds := cooldown
                account_pairs := account_pairs
                accounts := accounts
                recv_window := recv_window
                max_cycles := raw.max_cycles
                price_source_url := raw.price_source_url
                min_quantity := raw.min_quantity
                configure_leverage := raw.configure_leverage.getD true
                min_free_margin_usdt := raw.min_free_margin_usdt.getD 0
                position_close_timeout_seconds := (raw.position_close_timeout_seconds.getD 10)
                position_poll_interval_seconds := (raw.position_poll_interval_seconds.getD (1/2)) }

theorem dictSet_ne_nil (d : List (String × AccountConfig)) (k : String)
    (v : AccountConfig) : dictSet d k v ≠ [] := by
  unfold dictSet
  by_cases h : d.any (fun kv => kv.1 = k)
  · rw [if_pos h]
    intro hmap
    rw [List.map_eq_nil_iff] at hmap
    rw [hmap] at h
    simp at h
  · rw [if_neg h]
    simp

theorem build_accounts_ok (entries : List RawAccount) :
    ∀ acc : List (String × AccountConfig),
      (∀ e ∈ entries, e.api_key ≠ "" ∧ e.api_secret ≠ "") →
      ∃ d, build_accounts acc entries = .ok d ∧ (d = [] ↔ (acc = [] ∧ entries = [])) := by
  induction entries with
  | nil =>
      intro acc _
      exact ⟨acc, rfl, by simp⟩
  | cons e rest ih =>
      intro acc h
      have he := h e (List.mem_cons_self e rest)
      unfold build_accounts
      rw [if_neg (by push_neg; exact he)]
      obtain ⟨d, hd, hiff⟩ :=
        ih (dictSet acc e.name ⟨e.name, e.api_key, e.api_secret, e.display_name⟩)
          (fun x hx => h x (List.mem_cons_of_mem _ hx))
      refine ⟨d, hd, ?_, ?_⟩
      · intro hdnil
        exact absurd (hiff.mp hdnil).1 (dictSet_ne_nil _ _ _)
      · rintro ⟨-, hcons⟩
        cases hcons

/-- The raw config used to refute C4: numerically valid, one credentialed
account `"a"`, but an account pair naming `"x"`/`"y"`, neither of which is in
the credential set. -/
def rawDangling : RawConfig where
  symbol := some "ASTERUSDT"
  quantity_usdt := some 100
  accounts := [⟨"a", "key-a", "secret-a", none⟩]
  account_pairs := [⟨"x", "y"⟩]

/-- The configuration `from_dict` builds from `rawDangling` — it succeeds even
though the pair's names resolve to no configured credential. -/
def cfgDangling : VolumeBotConfig where
  base_url := "https://fapi.asterdex.com"
  symbol := "ASTERUSDT"
  target_notional_usdt := 100
  leverage := 50
  quantity_step := 1/1000
  hold_duration_seconds := 2
  cooldown_seconds := 3
  account_pairs := [⟨"x", "y"⟩]
  accounts := [("a", ⟨"a", "key-a", "secret-a", none⟩)]

/-- Counterexample to C4: `from_dict` accepts a configuration whose account
pair names do not exist in the credential set — no validation ties pair names
to accounts. -/
theorem from_dict_accepts_dangling_pair :
    from_dict rawDangling = .ok cfgDangling ∧
    cfgDangling.account_pairs = [⟨"x", "y"⟩] ∧
    List.lookup "x" cfgDangling.accounts = none ∧
    List.lookup "y" cfgDangling.accounts = none := by
  refine ⟨?_, rfl, by simp [cfgDangling, List.lookup], by simp [cfgDangling, List.lookup]⟩
  have hsym : pyUpper "ASTERUSDT" = "ASTERUSDT" := by decide
  have hurl : rstripSlash "https://fapi.asterdex.com" = "https://fapi.asterdex.com" := by decide
  norm_num [from_dict, rawDangling, build_accounts, dictSet, hsym, hurl]
  rw [if_neg (by decide : ¬("key-a" = "" ∨ "secret-a" = ""))]
  dsimp only
  rw [if_neg (by decide :
    ¬([("a", (⟨"a", "key-a", "secret-a", none⟩ : AccountConfig))] = []))]
  simp [cfgDangling]

/-- C4 as amended: given an otherwise well-formed raw config (symbol present,
a notional value present, every account entry with non-empty credentials),
`from_dict` succeeds exactly when the notional is positive, the step is
positive, and the accounts and pair lists are non-empty.  Pair names are not
validated against the credential set (see `from_dict_accepts_dangling_pair`). -/
theorem from_dict_validates_invariants (raw : RawConfig) (s : String) (t : ℚ)
    (hsym : raw.symbol = some s)
    (ht : (match raw.quantity_usdt with
           | some v => some v
           | none => raw.target_notional_usdt) = some t)
    (hacc : ∀ e ∈ raw.accounts, e.api_key ≠ "" ∧ e.api_secret ≠ "") :
    (from_dict raw).isOk = true ↔
      (0 < t ∧ 0 < raw.quantity_step.getD (1/1000) ∧
        raw.accounts ≠ [] ∧ raw.account_pairs ≠ []) := by
  unfold from_dict
  rw [hsym]
  dsimp only
  rw [ht]
  dsimp only
  obtain ⟨d, hd, hiff⟩ := build_accounts_ok raw.accounts [] hacc
  rw [hd]
  dsimp only
  split_ifs with h1 h2 h3 h4
  · simp only [Except.isOk, Except.toBool, Bool.false_eq_true, false_iff]
    intro h
    exact absurd h1 (not_le.mpr h.1)
  · simp only [Except.isOk, Except.toBool, Bool.false_eq_true, false_iff]
    intro h
    exact absurd h2 (not_le.mpr h.2.1)
  · have hraw : raw.accounts = [] := (hiff.mp h3).2
    simp [Except.isOk, Except.toBool, hraw]
  · rw [List.map_eq_nil_iff] at h4
    simp [Except.isOk, Except.toBool, h4]
  · have hraw : raw.accounts ≠ [] := by
      intro hnil
      exact h3 (hiff.mpr ⟨rfl, hnil⟩)
    have hpairs : raw.account_pairs ≠ [] := by
      intro hnil
      exact h4 (by rw [hnil]; rfl)
    simp only [Except.isOk, Except.toBool, true_iff]
    exact ⟨not_le.mp h1, not_le.mp h2, hraw, hpairs⟩

/-- Witness for the amended C4 theorem at `rawDangling`: all well-formedness
hypotheses hold and the validation criteria are met, so `from_dict` succeeds. -/
theorem from_dict_validates_invariants_witness :
    rawDangling.symbol = some "ASTERUSDT" ∧
    (∀ e ∈ rawDangling.accounts, e.api_key ≠ "" ∧ e.api_secret ≠ "") ∧
    (from_dict rawDangling).isOk = true := by
  refine ⟨rfl, by simp [rawDangling], ?_⟩
  exact (from_dict_validates_invariants rawDangling "ASTERUSDT" 100 rfl rfl
    (by simp [rawDangling])).mpr
    ⟨by norm_num, by norm_num [rawDangling], by simp [rawDangling], by simp [rawDangling]⟩

/-- A decoded JSON value, as produced by `response.json()`. -/
inductive JsonValue where
  | str (s : String)
  | num (q : ℚ)
  | bool (b : Bool)
  | null
  | arr (elems : List JsonValue)
  | obj (fields : List (String × JsonValue))

/-- Python truthiness of a decoded JSON value (`None`, `""`, `0`, `False`,
`[]`, `{}` are falsy). -/
def JsonValue.truthy : JsonValue → Bool
  | .str s => s ≠ ""
  | .num q => q ≠ 0
  | .bool b => b
  | .null => false
  | .arr l => !l.isEmpty
  | .obj l => !l.isEmpty

/-- An HTTP response as `_handle_response` observes it: the status code, the
body text, and the result of `response.json()` (`none` when the body is not
valid JSON, in which case `.json()` raises `ValueError`). -/
structure HttpResponse where
  status_code : ℕ
  text : String
  json : Option JsonValue

/-- The message a raised `VolumeBotError` carries, by extraction branch:
the raw text when the body was not JSON, the string itself when the body
decoded to a JSON string, the (truthy) `msg` field of a decoded object, or
`str(payload)` when `msg` is absent or falsy. -/
inductive ErrorMessage where
  | rawText (t : String)
  | jsonString (s : String)
  | msgField (v : JsonValue)
  | strPayload (p : JsonValue)

/-- How a call to `_handle_response` can terminate abnormally:
`volumeBotError` is the typed exchange error raised on `status >= 400`;
`jsonDecodeError` is the uncaught `ValueError` from `response.json()` on a
2xx non-JSON body; `attributeError` is the uncaught `AttributeError` from
`payload.get("msg")` when a `>= 400` body decodes to a JSON array, number,
boolean, or null. -/
inductive HandleFailure where
  | volumeBotError (message : ErrorMessage)
  | jsonDecodeError
  | attributeError

/-- Method `AccountClient._handle_response`. -/
def handle_response (r : HttpResponse) : Except HandleFailure JsonValue :=
  if 400 ≤ r.status_code then
    match r.json with
    | none => .error (.volumeBotError (.rawText r.text))
    | some (.str s) => .error (.volumeBotError (.jsonString s))
    | some (.obj fields) =>
        match fields.lookup "msg" with
        | some v =>
            if v.truthy then .error (.volumeBotError (.msgField v))
            else .error (.volumeBotError (.strPayload (.obj fields)))
        | none => .error (.volumeBotError (.strPayload (.obj fields)))
    | some _ => .error .attributeError
  else
    if r.text = "" then .ok (.obj [])
    else
      match r.json with
      | some payload => .ok payload
      | none => .error .jsonDecodeError

/-- The claim's notion of "the response body indicates an exchange-level
error": the decoded body is an object carrying a negative numeric `code`
(the exchange's error envelope). -/
def bodyIndicatesError : Option JsonValue → Bool
  | some (.obj fields) =>
      match fields.lookup "code" with
      | some (.num c) => c < 0
      | _ => false
  | _ => false

/-- A status-200 response whose body is the exchange's error envelope. -/
def respSoftError : HttpResponse where
  status_code := 200
  text := "x"
  json := some (.obj [("code", .num (-1021)), ("msg", .str "Timestamp outside recvWindow")])

/-- Counterexample to C5: a 200 response whose body indicates an
exchange-level error is returned as decoded JSON, not raised — only the HTTP
status decides whether the typed error is raised. -/
theorem handle_response_ignores_error_body :
    respSoftError.status_code < 400 ∧
    bodyIndicatesError respSoftError.json = true ∧
    handle_response respSoftError =
      .ok (.obj [("code", .num (-1021)), ("msg", .str "Timestamp outside recvWindow")]) := by
  have hx : ("x" : String) ≠ "" := by decide
  refine ⟨by norm_num [respSoftError], by norm_num [bodyIndicatesError, respSoftError, List.lookup], ?_⟩
  norm_num [handle_response, respSoftError, hx]

/-- The bodies on which the `>= 400` branch extracts a message without
crashing: no body, a JSON string, or a JSON object (a JSON array, number,
boolean, or null would make `payload.get("msg")` raise `AttributeError`). -/
def messageExtractable : Option JsonValue → Prop
  | none => True
  | some (.str _) => True
  | some (.obj _) => True
  | some _ => False

/-- C5 as amended: the typed exchange error is raised exactly when the HTTP
status is ≥ 400 (for bodies whose error message is extractable); the body's
content never triggers it below 400: such responses yield the decoded JSON
body, `{}` for an empty body. -/
theorem handle_response_raises_iff_status (r : HttpResponse)
    (hbody : messageExtractable r.json) :
    ((∃ m, handle_response r = .error (.volumeBotError m)) ↔ 400 ≤ r.status_code) ∧
    (r.status_code < 400 → r.text = "" → handle_response r = .ok (.obj [])) ∧
    (r.status_code < 400 → r.text ≠ "" → ∀ p, r.json = some p → handle_response r = .ok p) := by
  refine ⟨⟨?_, ?_⟩, ?_, ?_⟩
  · rintro ⟨m, hm⟩
    by_contra hlt
    unfold handle_response at hm
    rw [if_neg hlt] at hm
    by_cases ht : r.text = ""
    · rw [if_pos ht] at hm
      exact absurd hm (by simp)
    · rw [if_neg ht] at hm
      cases hj : r.json with
      | none => rw [hj] at hm; exact absurd hm (by simp)
      | some p => rw [hj] at hm; exact absurd hm (by simp)
  · intro hge
    unfold handle_response
    rw [if_pos hge]
    cases hj : r.json with
    | none => exact ⟨.rawText r.text, rfl⟩
    | some p =>
        rw [hj] at hbody
        cases p with
        | str s => exact ⟨.jsonString s, rfl⟩
        | obj fields =>
            dsimp only
            cases hl : fields.lookup "msg" with
            | none => exact ⟨.strPayload (.obj fields), rfl⟩
            | some v =>
                by_cases hv : v.truthy
                · exact ⟨.msgField v, by simp [hv]⟩
                · exact ⟨.strPayload (.obj fields), by simp [hv]⟩
        | num q => exact absurd hbody (by simp [messageExtractable])
        | bool b => exact absurd hbody (by simp [messageExtractable])
        | null => exact absurd hbody (by simp [messageExtractable])
        | arr l => exact absurd hbody (by simp [messageExtractable])
  · intro hlt ht
    unfold handle_response
    rw [if_neg (not_le.mpr hlt), if_pos ht]
  · intro hlt ht p hp
    unfold handle_response
    rw [if_neg (not_le.mpr hlt), if_neg ht, hp]

/-- Witness for the amended C5 theorem: a 404 with an error object raises the
typed error; `respSoftError` (status 200) returns its decoded body. -/
theorem handle_response_raises_iff_status_witness :
    messageExtractable (some (.obj [("msg", JsonValue.str "Not found")])) ∧
    (∃ m, handle_response ⟨404, "x", some (.obj [("msg", JsonValue.str "Not found")])⟩ =
      .error (.volumeBotError m)) ∧
    handle_response respSoftError =
      .ok (.obj [("code", .num (-1021)), ("msg", .str "Timestamp outside recvWindow")]) := by
  refine ⟨trivial, ?_, ?_⟩
  · exact (handle_response_raises_iff_status
      ⟨404, "x", some (.obj [("msg", JsonValue.str "Not found")])⟩ trivial).1.mpr
      (by norm_num)
  · exact (handle_response_raises_iff_status respSoftError trivial).2.2
      (by norm_num [respSoftError]) (by simp [respSoftError]) _ rfl

/-- The digit character for `d < 10` (codepoint `48 + d`). -/
def digitChar (d : ℕ) : Char :=
  Char.ofNat (48 + d)

/-- The decimal digit characters of `n`, most significant first; `fuel`
bounds the recursion (any `fuel > n` is enough). -/
def natDigits (fuel : ℕ) (n : ℕ) : List Char :=
  match fuel with
  | 0 => []
  | fuel + 1 =>
      if n < 10 then [digitChar n]
      else natDigits fuel (n / 10) ++ [digitChar (n % 10)]

/-- Decimal rendering of a natural number. -/
def natToChars (n : ℕ) : List Char :=
  natDigits (n + 1) n

/-- Left-pad a digit list with zeros to length `k`. -/
def zeroPadChars (l : List Char) (k : ℕ) : List Char :=
  List.replicate (k - l.length) '0' ++ l

/-- The exponent of the normalized (trailing-zero-free) decimal form of `q`:
the larger of the 2-adic and 5-adic valuations of the denominator.  For a
decimal-representable `q` this is the minimal `e` with `q.den ∣ 10 ^ e`. -/
def minDecExp (q : ℚ) : ℕ :=
  max (padicValNat 2 q.den) (padicValNat 5 q.den)

/-- The characters of `format(quantity.normalize(), "f")`: the value rendered
in plain decimal at its minimal exponent — trailing zeros stripped, and an
integral value rendered with no decimal point (Decimal's `normalize` turns
`50.00` into `5E+1`, which the `"f"` format re-expands to `50`). -/
def formatChars (q : ℚ) : List Char :=
  let e := minDecExp q
  let m : ℤ := q.num * 10 ^ e / (q.den : ℤ)
  let sign : List Char := if m < 0 then ['-'] else []
  let a := m.natAbs
  if e = 0 then sign ++ natToChars a
  else sign ++ natToChars (a / 10 ^ e) ++ ['.'] ++ zeroPadChars (natToChars (a % 10 ^ e)) e

/-- Rendering `format(quantity.normalize(), "f")` as a string.  (Two equal `Decimal`
values normalize to the same representation, so this is well defined on the
value alone.) -/
def formatNormalizedF (q : ℚ) : String :=
  ⟨formatChars q⟩

/-- The order payload built by `AccountClient.place_market_order`. -/
def place_market_order_payload (symbol side position_side : String)
    (quantity : ℚ) (reduce_only : Bool) : List (String × String) :=
  [("symbol", symbol), ("side", side), ("type", "MARKET"),
    ("positionSide", position_side), ("quantity", formatNormalizedF quantity)] ++
  (if reduce_only then [("reduceOnly", "true")] else [])

/-- Number of characters after the decimal point (0 when there is none). -/
def fracDigits (s : String) : ℕ :=
  match s.data.dropWhile (fun c => c ≠ '.') with
  | [] => 0
  | _ :: rest => rest.length

theorem natDigits_digit (fuel : ℕ) :
    ∀ n, ∀ c ∈ natDigits fuel n, ∃ d : ℕ, d < 10 ∧ c = digitChar d := by
  induction fuel with
  | zero => intro n c hc; cases hc
  | succ fuel ih =>
      intro n c hc
      unfold natDigits at hc
      by_cases hn : n < 10
      · rw [if_pos hn] at hc
        rw [List.mem_singleton] at hc
        exact ⟨n, hn, hc⟩
      · rw [if_neg hn] at hc
        rw [List.mem_append] at hc
        rcases hc with hc | hc
        · exact ih (n / 10) c hc
        · rw [List.mem_singleton] at hc
          exact ⟨n % 10, Nat.mod_lt n (by norm_num), hc⟩

theorem formatChars_no_exponent (q : ℚ) :
    ∀ c ∈ formatChars q, c ≠ 'E' ∧ c ≠ 'e' := by
  have hdigit : ∀ d : ℕ, d < 10 → digitChar d ≠ 'E' ∧ digitChar d ≠ 'e' := by
    intro d hd
    interval_cases d <;> exact ⟨by decide, by decide⟩
  have hnat : ∀ n, ∀ c ∈ natToChars n, c ≠ 'E' ∧ c ≠ 'e' := by
    intro n c hc
    obtain ⟨d, hd, rfl⟩ := natDigits_digit (n + 1) n c hc
    exact hdigit d hd
  intro c hc
  unfold formatChars at hc
  by_cases he : minDecExp q = 0
  · rw [if_pos he] at hc
    rw [List.mem_append] at hc
    rcases hc with hc | hc
    · by_cases hm : (q.num * 10 ^ minDecExp q / (q.den : ℤ)) < 0
      · rw [if_pos hm] at hc
        rw [List.mem_singleton] at hc
        exact hc ▸ ⟨by decide, by decide⟩
      · rw [if_neg hm] at hc
        cases hc
    · exact hnat _ c hc
  · rw [if_neg he] at hc
    rw [List.mem_append, List.mem_append, List.mem_append] at hc
    rcases hc with ((hc | hc) | hc) | hc
    · by_cases hm : (q.num * 10 ^ minDecExp q / (q.den : ℤ)) < 0
      · rw [if_pos hm] at hc
        rw [List.mem_singleton] at hc
        exact hc ▸ ⟨by decide, by decide⟩
      · rw [if_neg hm] at hc
        cases hc
    · exact hnat _ c hc
    · rw [List.mem_singleton] at hc
      exact hc ▸ ⟨by decide, by decide⟩
    · unfold zeroPadChars at hc
      rw [List.mem_append] at hc
      rcases hc with hc | hc
      · rw [List.eq_of_mem_replicate hc]
        exact ⟨by decide, by decide⟩
      · exact hnat _ c hc

/-- For a decimal-representable rational (denominator dividing some power of
ten), the denominator already divides ten to the `minDecExp`. -/
theorem den_dvd_ten_pow_minDecExp (q : ℚ) (k : ℕ) (h : (q.den : ℕ) ∣ 10 ^ k) :
    (q.den : ℕ) ∣ 10 ^ minDecExp q := by
  have hd0 : q.den ≠ 0 := q.den_nz
  have hp2 : Nat.Prime 2 := Nat.prime_two
  have hp5 : Nat.Prime 5 := by norm_num
  set d := q.den with hd
  set a := d.factorization 2 with ha
  have hdec : 2 ^ a * (d / 2 ^ a) = d := Nat.ordProj_mul_ordCompl_eq_self d 2
  have hcop : Nat.Coprime 2 (d / 2 ^ a) := Nat.coprime_ordCompl hp2 hd0
  have hodd_dvd : (d / 2 ^ a) ∣ 2 ^ k * 5 ^ k := by
    have h1 : (d / 2 ^ a) ∣ d := Nat.ordCompl_dvd d 2
    have h2 : (d / 2 ^ a) ∣ 10 ^ k := dvd_trans h1 h
    have h10 : (10 : ℕ) ^ k = 2 ^ k * 5 ^ k := by
      rw [← Nat.mul_pow]
    rwa [h10] at h2
  have h5 : (d / 2 ^ a) ∣ 5 ^ k :=
    Nat.Coprime.dvd_of_dvd_mul_left
      (Nat.Coprime.pow_right k hcop.symm) hodd_dvd
  obtain ⟨i, _, hi⟩ := (Nat.dvd_prime_pow hp5).mp h5
  have hdeq : d = 2 ^ a * 5 ^ i := by rw [← hdec, hi]
  have hfact5 : d.factorization 5 = i := by
    rw [hdeq, Nat.factorization_mul (by positivity) (by positivity)]
    rw [Nat.Prime.factorization_pow hp2, Nat.Prime.factorization_pow hp5]
    simp [Finsupp.single_apply]
  have hval2 : padicValNat 2 d = a := (Nat.factorization_def d hp2).symm
  have hval5 : padicValNat 5 d = i := by
    rw [← hfact5]
    exact (Nat.factorization_def d hp5).symm
  have hA : minDecExp q = max a i := by
    unfold minDecExp
    rw [← hd, hval2, hval5]
  rw [hA, hdeq]
  have h10A : (10 : ℕ) ^ max a i = 2 ^ max a i * 5 ^ max a i := by
    rw [← Nat.mul_pow]
  rw [h10A]
  exact Nat.mul_dvd_mul (pow_dvd_pow 2 (le_max_left a i)) (pow_dvd_pow 5 (le_max_right a i))

/-- The mantissa computed at any exponent `e` with `q.den ∣ 10 ^ e` represents
`q` exactly: the integer division is exact. -/
theorem mantissa_div_pow_eq (q : ℚ) (e : ℕ) (hdvd : (q.den : ℕ) ∣ 10 ^ e) :
    ((q.num * 10 ^ e / (q.den : ℤ) : ℤ) : ℚ) / 10 ^ e = q := by
  have hzdvd : (q.den : ℤ) ∣ q.num * 10 ^ e := by
    have h1 : ((q.den : ℕ) : ℤ) ∣ ((10 ^ e : ℕ) : ℤ) := Int.natCast_dvd_natCast.mpr hdvd
    have h2 : (q.den : ℤ) ∣ (10 : ℤ) ^ e := by push_cast at h1; exact h1
    exact Dvd.dvd.mul_left h2 q.num
  have hmul : q.num * 10 ^ e / (q.den : ℤ) * (q.den : ℤ) = q.num * 10 ^ e :=
    Int.ediv_mul_cancel hzdvd
  have hden0 : ((q.den : ℕ) : ℚ) ≠ 0 := Nat.cast_ne_zero.mpr q.den_nz
  have h10 : ((10 : ℚ)) ^ e ≠ 0 := pow_ne_zero e (by norm_num)
  have hcast : ((q.num * 10 ^ e / (q.den : ℤ) : ℤ) : ℚ) * ((q.den : ℕ) : ℚ) =
      (q.num : ℚ) * 10 ^ e := by
    exact_mod_cast congrArg (fun z : ℤ => (z : ℚ)) hmul
  have hq : (q.num : ℚ) = q * ((q.den : ℕ) : ℚ) := by
    exact (div_eq_iff hden0).mp (Rat.num_div_den q)
  rw [div_eq_iff h10]
  refine mul_right_cancel₀ hden0 ?_
  rw [hcast, hq]
  ring

/-- Counterexample to C6: with step `0.01`, quantity `50` is serialized as
`"50"` — `normalize()` strips the trailing zeros — not `"50.00"` as the claim
requires; the fractional precision (0 digits) does not match the step's. -/
theorem place_market_order_serialization_counterexample :
    List.lookup "quantity"
      (place_market_order_payload "ASTERUSDT" "BUY" "LONG" 50 false) = some "50" ∧
    ("50" : String) ≠ "50.00" ∧
    fracDigits "50" = 0 := by
  have he : minDecExp (50 : ℚ) = 0 := by
    simp [minDecExp]
  have hf : formatNormalizedF (50 : ℚ) = "50" := by
    unfold formatNormalizedF formatChars
    rw [he]
    norm_num
    decide
  refine ⟨?_, by decide, by decide⟩
  simp [place_market_order_payload, hf, List.lookup]

/-- C6 as amended: for a quantity that is an integer multiple of a
decimal-representable step, the payload's `quantity` field is the plain
rendering of the normalized decimal: it represents the quantity exactly at its
minimal exponent (trailing zeros stripped, so not in general at the step's
precision) and contains no exponent marker. -/
theorem place_market_order_quantity_plain (symbol side position_side : String)
    (cfg : VolumeBotConfig) (q : ℚ) (n : ℤ) (r : Bool) (k : ℕ)
    (hq : q = (n : ℚ) * cfg.quantity_step)
    (hk : cfg.quantity_step.den ∣ 10 ^ k) :
    List.lookup "quantity" (place_market_order_payload symbol side position_side q r)
      = some (formatNormalizedF q) ∧
    ((q.num * 10 ^ minDecExp q / (q.den : ℤ) : ℤ) : ℚ) / 10 ^ minDecExp q = q ∧
    (∀ c ∈ (formatNormalizedF q).data, c ≠ 'E' ∧ c ≠ 'e') := by
  have hden : q.den ∣ 10 ^ k := by
    have h1 : q.den ∣ ((n : ℚ)).den * cfg.quantity_step.den := hq ▸ Rat.mul_den_dvd _ _
    rw [Rat.den_intCast, one_mul] at h1
    exact dvd_trans h1 hk
  refine ⟨?_,
    mantissa_div_pow_eq q (minDecExp q) (den_dvd_ten_pow_minDecExp q k hden),
    fun c hc => formatChars_no_exponent q c hc⟩
  cases r <;> simp [place_market_order_payload, List.lookup]

/-- Witness for the amended C6 theorem: quantity `50` as `5000 × 0.01`.  The
serialized field is `formatNormalizedF 50` and the mantissa at the minimal
exponent recovers `50` exactly. -/
theorem place_market_order_quantity_plain_witness :
    (50 : ℚ) = ((5000 : ℤ) : ℚ) * cfgMargin.quantity_step ∧
    List.lookup "quantity"
      (place_market_order_payload "ASTERUSDT" "BUY" "LONG" 50 false)
      = some (formatNormalizedF 50) ∧
    (((50 : ℚ).num * 10 ^ minDecExp 50 / ((50 : ℚ).den : ℤ) : ℤ) : ℚ) /
      10 ^ minDecExp 50 = 50 := by
  have hq : (50 : ℚ) = ((5000 : ℤ) : ℚ) * cfgMargin.quantity_step := by
    norm_num [cfgMargin]
  have hk : cfgMargin.quantity_step.den ∣ 10 ^ 2 := by
    have h := Rat.den_dvd 1 100
    rw [Rat.divInt_eq_div] at h
    push_cast at h
    have h2 : ((1 : ℚ) / 100).den ∣ 100 :=
      Int.natCast_dvd_natCast.mp (by push_cast; exact h)
    have hstep : cfgMargin.quantity_step = (1 : ℚ) / 100 := by norm_num [cfgMargin]
    rw [hstep]
    exact dvd_trans h2 (by norm_num)
  have hmain := place_market_order_quantity_plain "ASTERUSDT" "BUY" "LONG"
    cfgMargin 50 5000 false 2 hq hk
  exact ⟨hq, hmain.1, hmain.2.1⟩

/-- One record of the income endpoint as `sum_commission_records` and
`collect_commissions` consume it: an absent key is `none`; the `income` value
is taken as already parsed (`Decimal(str(...))` succeeds on the records the
claims quantify over). -/
structure IncomeRecord where
  incomeType : Option String := none
  income : ℚ := 0
  asset : Option String := none
  time : Option ℤ := none
  deriving DecidableEq

/-- The skip condition of the loop in `sum_commission_records`:
`record.get("incomeType") and record["incomeType"].upper() != "COMMISSION"`.
A missing or empty (falsy) `incomeType` never skips. -/
def skippedB (r : IncomeRecord) : Bool :=
  match r.incomeType with
  | some t => decide (t ≠ "" ∧ pyUpper t ≠ "COMMISSION")
  | none => false

/-- The accumulator loop of `sum_commission_records`. -/
def sum_commission_records_aux (total : ℚ) (assets : List String) :
    List IncomeRecord → ℚ × List String
  | [] => (total, assets)
  | r :: rest =>
      if skippedB r then sum_commission_records_aux total assets rest
      else
        let income := r.income
        if income = 0 then sum_commission_records_aux total assets rest
        else
          let assets' :=
            match r.asset with
            | some a => if a ≠ "" ∧ a ∉ assets then assets ++ [a] else assets
            | none => assets
          sum_commission_records_aux
            (total + (if income < 0 then -income else income)) assets' rest

/-- Function `sum_commission_records`: total of commission-like records (absolute
value) and the ordered deduplicated list of assets seen. -/
def sum_commission_records (records : List IncomeRecord) : ℚ × List String :=
  sum_commission_records_aux 0 [] records

theorem sum_commission_records_aux_total (l : List IncomeRecord) :
    ∀ (t : ℚ) (as : List String),
      (sum_commission_records_aux t as l).1 =
        t + ((l.filter (fun r => !skippedB r)).map (fun r => |r.income|)).sum := by
  induction l with
  | nil => intro t as; simp [sum_commission_records_aux]
  | cons r rest ih =>
      intro t as
      unfold sum_commission_records_aux
      by_cases hs : skippedB r
      · rw [if_pos hs, ih]
        simp [List.filter_cons, hs]
      · rw [if_neg hs]
        by_cases hz : r.income = 0
        · rw [if_pos hz, ih]
          simp [List.filter_cons, hs, hz, abs_of_nonneg]
        · rw [if_neg hz]
          dsimp only
          rw [ih]
          have habs : (if r.income < 0 then -r.income else r.income) = |r.income| := by
            rcases lt_or_ge r.income 0 with h | h
            · rw [if_pos h, abs_of_neg h]
            · rw [if_neg (not_lt.mpr h), abs_of_nonneg h]
          simp only [List.filter_cons, hs, Bool.not_false, if_true, List.map_cons,
            List.sum_cons, habs]
          ring

theorem sum_commission_records_aux_assets (l : List IncomeRecord) :
    ∀ (t : ℚ) (as : List String),
      ∀ a ∈ (sum_commission_records_aux t as l).2,
        a ∈ as ∨ ∃ r ∈ l, ¬ skippedB r ∧ r.income ≠ 0 ∧ r.asset = some a := by
  induction l with
  | nil =>
      intro t as a ha
      exact Or.inl ha
  | cons r rest ih =>
      intro t as a ha
      unfold sum_commission_records_aux at ha
      by_cases hs : skippedB r
      · rw [if_pos hs] at ha
        rcases ih _ _ a ha with h | ⟨r', hr', h⟩
        · exact Or.inl h
        · exact Or.inr ⟨r', List.mem_cons_of_mem _ hr', h⟩
      · rw [if_neg hs] at ha
        by_cases hz : r.income = 0
        · rw [if_pos hz] at ha
          rcases ih _ _ a ha with h | ⟨r', hr', h⟩
          · exact Or.inl h
          · exact Or.inr ⟨r', List.mem_cons_of_mem _ hr', h⟩
        · rw [if_neg hz] at ha
          dsimp only at ha
          rcases ih _ _ a ha with h | ⟨r', hr', h⟩
          · cases hasset : r.asset with
            | none =>
                rw [hasset] at h
                exact Or.inl h
            | some b =>
                rw [hasset] at h
                dsimp only at h
                by_cases hb : b ≠ "" ∧ b ∉ as
                · rw [if_pos hb] at h
                  rw [List.mem_append] at h
                  rcases h with h | h
                  · exact Or.inl h
                  · rw [List.mem_singleton] at h
                    exact Or.inr ⟨r, List.mem_cons_self r rest, hs, hz, by rw [hasset, h]⟩
                · rw [if_neg hb] at h
                  exact Or.inl h
          · exact Or.inr ⟨r', List.mem_cons_of_mem _ hr', h⟩

/-- C10: a record with an absent or empty `incomeType` is never skipped —
only a non-empty type differing from `COMMISSION` (case-insensitively) is —
so untagged income records are counted into the commission total, which sums
`|income|` over exactly the unskipped records. -/
theorem sum_commission_counts_untagged (records : List IncomeRecord) :
    (sum_commission_records records).1 =
      ((records.filter (fun r => !skippedB r)).map (fun r => |r.income|)).sum ∧
    (∀ r : IncomeRecord, skippedB r = true ↔
      ∃ t, r.incomeType = some t ∧ t ≠ "" ∧ pyUpper t ≠ "COMMISSION") := by
  constructor
  · rw [sum_commission_records, sum_commission_records_aux_total, zero_add]
  · intro r
    unfold skippedB
    cases ht : r.incomeType with
    | none => simp
    | some t => simp

/-- C7: when every record carries a non-empty `incomeType`, the total is the
sum of `|income|` over exactly the records typed `COMMISSION` (ignoring case);
zero-income records add nothing, and every asset in the returned list comes
from a counted record with non-zero income (zero-income records register no
asset). -/
theorem sum_commission_records_spec (records : List IncomeRecord)
    (htyped : ∀ r ∈ records, ∃ t, r.incomeType = some t ∧ t ≠ "") :
    (sum_commission_records records).1 =
      ((records.filter
          (fun r => decide (pyUpper (r.incomeType.getD "") = "COMMISSION"))).map
        (fun r => |r.income|)).sum ∧
    (∀ a ∈ (sum_commission_records records).2,
      ∃ r ∈ records, ¬ skippedB r ∧ r.income ≠ 0 ∧ r.asset = some a) := by
  constructor
  · rw [sum_commission_records, sum_commission_records_aux_total, zero_add]
    have hfil : records.filter (fun r => !skippedB r) =
        records.filter
          (fun r => decide (pyUpper (r.incomeType.getD "") = "COMMISSION")) := by
      apply List.filter_congr
      intro r hr
      obtain ⟨t, ht, hne⟩ := htyped r hr
      unfold skippedB
      rw [ht]
      simp [hne]
    rw [hfil]
  · intro a ha
    rcases sum_commission_records_aux_assets records 0 [] a ha with h | h
    · cases h
    · exact h

/-- Witness for the C7 theorem on the fixture of
`test_sum_commission_records_handles_negative_and_positive_values`: two
COMMISSION records of `-0.10`/`-0.30` and one `FUNDING_FEE` of `0.02`. -/
theorem sum_commission_records_spec_witness :
    (∀ r ∈ ([⟨some "COMMISSION", -1/10, some "USDT", none⟩,
             ⟨some "FUNDING_FEE", 1/50, some "USDT", none⟩,
             ⟨some "COMMISSION", -3/10, some "USDT", none⟩] : List IncomeRecord),
      ∃ t, r.incomeType = some t ∧ t ≠ "") ∧
    (sum_commission_records
        [⟨some "COMMISSION", -1/10, some "USDT", none⟩,
         ⟨some "FUNDING_FEE", 1/50, some "USDT", none⟩,
         ⟨some "COMMISSION", -3/10, some "USDT", none⟩]).1 =
      ((([⟨some "COMMISSION", -1/10, some "USDT", none⟩,
          ⟨some "FUNDING_FEE", 1/50, some "USDT", none⟩,
          ⟨some "COMMISSION", -3/10, some "USDT", none⟩] : List IncomeRecord).filter
          (fun r => decide (pyUpper (r.incomeType.getD "") = "COMMISSION"))).map
        (fun r => |r.income|)).sum := by
  have htyped : ∀ r ∈ ([⟨some "COMMISSION", -1/10, some "USDT", none⟩,
      ⟨some "FUNDING_FEE", 1/50, some "USDT", none⟩,
      ⟨some "COMMISSION", -3/10, some "USDT", none⟩] : List IncomeRecord),
      ∃ t, r.incomeType = some t ∧ t ≠ "" := by
    intro r hr
    simp only [List.mem_cons, List.not_mem_nil, or_false] at hr
    rcases hr with rfl | rfl | rfl
    · exact ⟨_, rfl, by decide⟩
    · exact ⟨_, rfl, by decide⟩
    · exact ⟨_, rfl, by decide⟩
  exact ⟨htyped, (sum_commission_records_spec _ htyped).1⟩

/-- Constant `WINDOW_MS = WINDOW_DAYS * 24 * 60 * 60 * 1000` with `WINDOW_DAYS = 6`. -/
def WINDOW_MS : ℤ := 6 * 24 * 60 * 60 * 1000

/-- The query parameters of one income-endpoint call issued by
`collect_commissions`. -/
structure IncomeParams where
  incomeType : String
  startTime : ℤ
  endTime : ℤ
  limit : ℕ
  symbol : Option String
  deriving DecidableEq

/-- Model of `max(int(item.get("time", fetch_cursor)) for item in page)`: a record
without a `time` contributes the current cursor.  (Unreachable for an empty
page: the loop breaks on those first.) -/
def maxTime (cursor : ℤ) (page : List IncomeRecord) : ℤ :=
  match page.map (fun r => r.time.getD cursor) with
  | [] => cursor
  | t :: ts => ts.foldl max t

/-- Model of `for asset in chunk_assets: if asset not in assets: assets.append(asset)`. -/
def mergeAssets (assets chunk_assets : List String) : List String :=
  chunk_assets.foldl (fun acc a => if a ∉ acc then acc ++ [a] else acc) assets

/-- The inner `while fetch_cursor <= window_end` loop of `collect_commissions`,
with the running totals and the log of issued request parameters threaded as
accumulators.  The pure `fetch` argument stands for the `fetch_page` callback.
Termination: the cursor strictly increases toward `window_end`. -/
def fetch_pages (fetch : IncomeParams → List IncomeRecord) (limit : ℕ)
    (symbol : Option String) (window_end : ℤ) (total : ℚ) (assets : List String)
    (log : List IncomeParams) (fetch_cursor : ℤ) :
    ℚ × List String × List IncomeParams :=
  if h : fetch_cursor ≤ window_end then
    if hpage : fetch ⟨"COMMISSION", fetch_cursor, window_end, limit, symbol⟩ = [] then
      (total, assets, log ++ [⟨"COMMISSION", fetch_cursor, window_end, limit, symbol⟩])
    else
      let chunk :=
        sum_commission_records (fetch ⟨"COMMISSION", fetch_cursor, window_end, limit, symbol⟩)
      if hnext :
          maxTime fetch_cursor (fetch ⟨"COMMISSION", fetch_cursor, window_end, limit, symbol⟩) + 1 ≤
            fetch_cursor then
        (total + chunk.1, mergeAssets assets chunk.2,
          log ++ [⟨"COMMISSION", fetch_cursor, window_end, limit, symbol⟩])
      else if (fetch ⟨"COMMISSION", fetch_cursor, window_end, limit, symbol⟩).length < limit then
        (total + chunk.1, mergeAssets assets chunk.2,
          log ++ [⟨"COMMISSION", fetch_cursor, window_end, limit, symbol⟩])
      else
        fetch_pages fetch limit symbol window_end (total + chunk.1)
          (mergeAssets assets chunk.2)
          (log ++ [⟨"COMMISSION", fetch_cursor, window_end, limit, symbol⟩])
          (maxTime fetch_cursor (fetch ⟨"COMMISSION", fetch_cursor, window_end, limit, symbol⟩) + 1)
  else (total, assets, log)
termination_by (window_end + 1 - fetch_cursor).toNat
decreasing_by
  omega

/-- The outer `while cursor <= end_ms` loop of `collect_commissions`, stepping
one 6-day window at a time.  The guard `cursor ≤ window_end` always holds for
a non-negative `window_ms`; with a negative window the Python loop would never
terminate, and the model stops instead. -/
def collect_commissions_loop (fetch : IncomeParams → List IncomeRecord)
    (limit : ℕ) (symbol : Option String) (window_ms end_ms : ℤ) (total : ℚ)
    (assets : List String) (log : List IncomeParams) (cursor : ℤ) :
    ℚ × List String × List IncomeParams :=
  if h : cursor ≤ end_ms then
    let window_end := min (cursor + window_ms) end_ms
    if h2 : cursor ≤ window_end then
      let r := fetch_pages fetch limit symbol window_end total assets log cursor
      collect_commissions_loop fetch limit symbol window_ms end_ms
        r.1 r.2.1 r.2.2 (window_end + 1)
    else (total, assets, log)
  else (total, assets, log)
termination_by (end_ms + 1 - cursor).toNat
decreasing_by
  have hmin : min (cursor + window_ms) end_ms ≤ end_ms := min_le_right _ _
  omega

/-- Function `collect_commissions`, instrumented with the list of issued parameter
sets (third component). -/
def collect_commissions (fetch : IncomeParams → List IncomeRecord)
    (start_ms end_ms : ℤ) (symbol : Option String := none)
    (limit : ℕ := 1000) (window_ms : ℤ := WINDOW_MS) :
    ℚ × List String × List IncomeParams :=
  collect_commissions_loop fetch limit symbol window_ms end_ms 0 [] [] start_ms

theorem fetch_pages_log_spec (fetch : IncomeParams → List IncomeRecord) (limit : ℕ)
    (symbol : Option String) (window_end : ℤ) :
    ∀ (total : ℚ) (assets : List String) (log₀ : List IncomeParams) (cursor : ℤ),
    ∃ L : List IncomeParams,
      (fetch_pages fetch limit symbol window_end total assets log₀ cursor).2.2 = log₀ ++ L ∧
      (∀ p ∈ L, p.incomeType = "COMMISSION" ∧ p.endTime = window_end ∧ p.limit = limit ∧
        p.symbol = symbol ∧ cursor ≤ p.startTime ∧ p.startTime ≤ window_end) ∧
      (cursor ≤ window_end →
        L.head? = some ⟨"COMMISSION", cursor, window_end, limit, symbol⟩) ∧
      (¬cursor ≤ window_end → L = []) ∧
      List.Chain' (fun p q => q.startTime = maxTime p.startTime (fetch p) + 1) L ∧
      (∀ p ∈ L.dropLast, fetch p ≠ [] ∧ limit ≤ (fetch p).length) := by
  intro total assets log₀ cursor
  induction total, assets, log₀, cursor using fetch_pages.induct fetch limit symbol window_end with
  | case1 total assets log cursor h hpage =>
      refine ⟨[⟨"COMMISSION", cursor, window_end, limit, symbol⟩], ?_, ?_, ?_, ?_, ?_, ?_⟩
      · unfold fetch_pages
        rw [dif_pos h, dif_pos hpage]
      · intro p hp
        rw [List.mem_singleton] at hp
        subst hp
        exact ⟨rfl, rfl, rfl, rfl, le_refl _, h⟩
      · intro _
        rfl
      · intro hc
        exact absurd h hc
      · exact List.chain'_singleton _
      · intro p hp
        rw [List.dropLast_single] at hp
        cases hp
  | case2 total assets log cursor h hpage hnext =>
      refine ⟨[⟨"COMMISSION", cursor, window_end, limit, symbol⟩], ?_, ?_, ?_, ?_, ?_, ?_⟩
      · unfold fetch_pages
        rw [dif_pos h, dif_neg hpage]
        dsimp only
        rw [dif_pos hnext]
      · intro p hp
        rw [List.mem_singleton] at hp
        subst hp
        exact ⟨rfl, rfl, rfl, rfl, le_refl _, h⟩
      · intro _
        rfl
      · intro hc
        exact absurd h hc
      · exact List.chain'_singleton _
      · intro p hp
        rw [List.dropLast_single] at hp
        cases hp
  | case3 total assets log cursor h hpage hnext hlt =>
      refine ⟨[⟨"COMMISSION", cursor, window_end, limit, symbol⟩], ?_, ?_, ?_, ?_, ?_, ?_⟩
      · unfold fetch_pages
        rw [dif_pos h, dif_neg hpage]
        dsimp only
        rw [dif_neg hnext, if_pos hlt]
      · intro p hp
        rw [List.mem_singleton] at hp
        subst hp
        exact ⟨rfl, rfl, rfl, rfl, le_refl _, h⟩
      · intro _
        rfl
      · intro hc
        exact absurd h hc
      · exact List.chain'_singleton _
      · intro p hp
        rw [List.dropLast_single] at hp
        cases hp
  | case4 total assets log cursor h hpage chunk hnext hlt ih =>
      obtain ⟨L', heq, hprops, hhead, hnil, hchain, hfull⟩ := ih
      refine ⟨⟨"COMMISSION", cursor, window_end, limit, symbol⟩ :: L', ?_, ?_, ?_, ?_, ?_, ?_⟩
      · unfold fetch_pages
        rw [dif_pos h, dif_neg hpage]
        dsimp only
        rw [dif_neg hnext, if_neg hlt]
        rw [heq, List.append_assoc, List.singleton_append]
      · intro p hp
        rcases List.mem_cons.mp hp with rfl | hp
        · exact ⟨rfl, rfl, rfl, rfl, le_refl _, h⟩
        · obtain ⟨h1, h2, h3, h4, h5, h6⟩ := hprops p hp
          have hlt' : cursor <
              maxTime cursor
                (fetch ⟨"COMMISSION", cursor, window_end, limit, symbol⟩) + 1 :=
            lt_of_not_le hnext
          exact ⟨h1, h2, h3, h4, le_trans (le_of_lt hlt') h5, h6⟩
      · intro _
        rfl
      · intro hc
        exact absurd h hc
      · rw [List.chain'_cons']
        refine ⟨?_, hchain⟩
        intro q hq
        by_cases hnw :
            maxTime cursor (fetch ⟨"COMMISSION", cursor, window_end, limit, symbol⟩) + 1 ≤
              window_end
        · rw [hhead hnw, Option.mem_def, Option.some.injEq] at hq
          subst hq
          rfl
        · rw [hnil hnw] at hq
          cases hq
      · intro p hp
        cases L' with
        | nil =>
            rw [List.dropLast_single] at hp
            cases hp
        | cons a as =>
            rw [List.dropLast_cons₂] at hp
            rcases List.mem_cons.mp hp with rfl | hp
            · exact ⟨hpage, le_of_not_lt hlt⟩
            · exact hfull p hp
  | case5 total assets log cursor h =>
      refine ⟨[], ?_, ?_, ?_, ?_, ?_, ?_⟩
      · unfold fetch_pages
        rw [dif_neg h, List.append_nil]
      · intro p hp
        cases hp
      · intro hc
        exact absurd hc h
      · intro _
        rfl
      · exact List.chain'_nil
      · intro p hp
        cases hp

/-- C8: over a time range that fits within one query window, the issued calls
start at `start_ms`, each later call's `startTime` is `max(time) + 1` over the
prior page (a missing `time` defaulting to that call's cursor), every
non-final page was full (the paging stops as soon as a page comes back short
or empty), and no request spans more than the window. -/
theorem collect_commissions_pagination (fetch : IncomeParams → List IncomeRecord)
    (start_ms end_ms : ℤ) (symbol : Option String) (limit : ℕ) (window_ms : ℤ)
    (hw : 0 ≤ window_ms) (hse : start_ms ≤ end_ms)
    (hfit : end_ms ≤ start_ms + window_ms) :
    ∃ L : List IncomeParams,
      (collect_commissions fetch start_ms end_ms symbol limit window_ms).2.2 = L ∧
      L.head? = some ⟨"COMMISSION", start_ms, end_ms, limit, symbol⟩ ∧
      List.Chain' (fun p q => q.startTime = maxTime p.startTime (fetch p) + 1) L ∧
      (∀ p ∈ L.dropLast, fetch p ≠ [] ∧ limit ≤ (fetch p).length) ∧
      (∀ p ∈ L, p.endTime - p.startTime ≤ window_ms) := by
  have hwe : min (start_ms + window_ms) end_ms = end_ms := min_eq_right hfit
  obtain ⟨L, heq, hprops, hhead, hnil, hchain, hfull⟩ :=
    fetch_pages_log_spec fetch limit symbol end_ms 0 [] [] start_ms
  refine ⟨L, ?_, hhead hse, hchain, hfull, ?_⟩
  · unfold collect_commissions
    rw [collect_commissions_loop]
    rw [dif_pos hse]
    dsimp only
    rw [hwe, dif_pos hse]
    rw [collect_commissions_loop]
    rw [dif_neg (by omega : ¬(end_ms + 1 ≤ end_ms))]
    rw [heq, List.nil_append]
  · intro p hp
    obtain ⟨-, h2, -, -, h5, -⟩ := hprops p hp
    omega

/-- A two-page fetch fixture (limit 2), as in
`test_collect_commissions_iterates_through_multiple_pages`: a full first page
at cursor 0 with times 0 and 1, a short second page at cursor 2. -/
def fetchFixture (p : IncomeParams) : List IncomeRecord :=
  if p.startTime = 0 then
    [⟨some "COMMISSION", -1/20, some "USDT", some 0⟩,
     ⟨some "COMMISSION", -3/20, some "USDT", some 1⟩]
  else if p.startTime = 2 then
    [⟨some "COMMISSION", -1/5, some "USDT", some 2⟩]
  else []

/-- Witness for the C8 theorem on the two-page fixture over one window. -/
theorem collect_commissions_pagination_witness :
    (0 : ℤ) ≤ WINDOW_MS ∧ (0 : ℤ) ≤ WINDOW_MS ∧ WINDOW_MS ≤ 0 + WINDOW_MS ∧
    ∃ L : List IncomeParams,
      (collect_commissions fetchFixture 0 WINDOW_MS none 2 WINDOW_MS).2.2 = L ∧
      L.head? = some ⟨"COMMISSION", 0, WINDOW_MS, 2, none⟩ ∧
      List.Chain' (fun p q => q.startTime = maxTime p.startTime (fetchFixture p) + 1) L ∧
      (∀ p ∈ L.dropLast, fetchFixture p ≠ [] ∧ 2 ≤ (fetchFixture p).length) ∧
      (∀ p ∈ L, p.endTime - p.startTime ≤ WINDOW_MS) := by
  refine ⟨by norm_num [WINDOW_MS], by norm_num [WINDOW_MS], by omega, ?_⟩
  exact collect_commissions_pagination fetchFixture 0 WINDOW_MS none 2 WINDOW_MS
    (by norm_num [WINDOW_MS]) (by norm_num [WINDOW_MS]) (by omega)

end VolumeBot
